import Mathlib

/-!
Verification of the S3 client library core: the ETag fingerprint engine,
the AWS Signature Version 4 canonicalization and signing chain, and the
region/endpoint resolver. Rust functions are embedded as Lean functions
over `Nat` byte lists and `String`s; machine-integer wraparound is made
explicit with `% 2 ^ 32` (resp. `% 2 ^ 64`).
-/

set_option maxRecDepth 100000

namespace MinioRs

/-! ## Bytes and hex encoding -/

/-- The UTF-8 bytes of a string, as naturals (faithful for the ASCII
strings this library signs and formats). -/
def strBytes (s : String) : List Nat := s.data.map Char.toNat

/-- Lowercase hex digit for a value below 16. -/
def hexDigit (n : Nat) : Char :=
  if n < 10 then Char.ofNat (48 + n) else Char.ofNat (87 + n)

/-- One byte as two lowercase hex characters (zero padded), as produced by
`hex::encode`. -/
def hexByte (b : Nat) : List Char := [hexDigit (b / 16 % 16), hexDigit (b % 16)]

/-- `hex::encode`: a byte list as a lowercase hex string, two digits per
byte. -/
def hexEncode (bs : List Nat) : String := String.mk (bs.flatMap hexByte)

/-- Minimal-length lowercase hex of a natural, as Rust's `{:x}` format
specifier prints it: no zero padding, and `0` prints as `"0"`. -/
def toHexMin (n : Nat) : List Char :=
  (Nat.toDigits 16 n).map fun c => c

/-- Whether a character is an ASCII hex digit (either case), as accepted
by `hex::decode_to_slice`. -/
def isHexChar (c : Char) : Bool :=
  (48 ≤ c.toNat && c.toNat ≤ 57) || (97 ≤ c.toNat && c.toNat ≤ 102) ||
    (65 ≤ c.toNat && c.toNat ≤ 70)

/-- Value of an ASCII hex digit. -/
def hexCharVal (c : Char) : Nat :=
  if 48 ≤ c.toNat && c.toNat ≤ 57 then c.toNat - 48
  else if 97 ≤ c.toNat && c.toNat ≤ 102 then c.toNat - 87
  else c.toNat - 55

/-- `hex::decode_to_slice`: decode a hex character list into bytes, two
characters per byte; any non-hex character (or odd length) fails. -/
def hexDecode : List Char → Option (List Nat)
  | [] => some []
  | [_] => none
  | c₁ :: c₂ :: rest =>
    if isHexChar c₁ && isHexChar c₂ then
      (hexDecode rest).map fun bs => (16 * hexCharVal c₁ + hexCharVal c₂) :: bs
    else none

/-! ## 32-bit word arithmetic -/

/-- Truncate to 32 bits. -/
def w32 (n : Nat) : Nat := n % 2 ^ 32

/-- Bitwise complement on 32-bit words. -/
def not32 (x : Nat) : Nat := x ^^^ 0xffffffff

/-- Rotate a 32-bit word left by `n` bits. -/
def rotl32 (x n : Nat) : Nat := w32 (x <<< n) ||| (x >>> (32 - n))

/-- Rotate a 32-bit word right by `n` bits. -/
def rotr32 (x n : Nat) : Nat := (x >>> n) ||| w32 (x <<< (32 - n))

/-- A 32-bit word as four bytes, little-endian. -/
def le32 (x : Nat) : List Nat :=
  [x % 256, x / 256 % 256, x / 65536 % 256, x / 16777216 % 256]

/-- A 32-bit word as four bytes, big-endian. -/
def be32 (x : Nat) : List Nat :=
  [x / 16777216 % 256, x / 65536 % 256, x / 256 % 256, x % 256]

/-- A 64-bit value as eight bytes, little-endian. -/
def le64 (x : Nat) : List Nat :=
  le32 (x % 2 ^ 32) ++ le32 (x / 2 ^ 32 % 2 ^ 32)

/-- A 64-bit value as eight bytes, big-endian. -/
def be64 (x : Nat) : List Nat :=
  be32 (x / 2 ^ 32 % 2 ^ 32) ++ be32 (x % 2 ^ 32)

/-- Split a byte list into 64-byte blocks (structural recursion on a fuel
bound so the kernel can evaluate it; the fuel never runs out because each
round consumes at least one byte). -/
def chunks64Aux : Nat → List Nat → List (List Nat)
  | 0, _ => []
  | _ + 1, [] => []
  | fuel + 1, b :: rest =>
    ((b :: rest).take 64) :: chunks64Aux fuel ((b :: rest).drop 64)

/-- Split a byte list into 64-byte blocks. -/
def chunks64 (l : List Nat) : List (List Nat) := chunks64Aux l.length l

/-! ## MD5 (RFC 1321), as implemented by the `md5` crate -/

/-- The 64 MD5 sine-derived round constants. -/
def md5K : List Nat :=
  [3614090360, 3905402710, 606105819, 3250441966, 4118548399, 1200080426,
   2821735955, 4249261313, 1770035416, 2336552879, 4294925233, 2304563134,
   1804603682, 4254626195, 2792965006, 1236535329, 4129170786, 3225465664,
   643717713, 3921069994, 3593408605, 38016083, 3634488961, 3889429448,
   568446438, 3275163606, 4107603335, 1163531501, 2850285829, 4243563512,
   1735328473, 2368359562, 4294588738, 2272392833, 1839030562, 4259657740,
   2763975236, 1272893353, 4139469664, 3200236656, 681279174, 3936430074,
   3572445317, 76029189, 3654602809, 3873151461, 530742520, 3299628645,
   4096336452, 1126891415, 2878612391, 4237533241, 1700485571, 2399980690,
   4293915773, 2240044497, 1873313359, 4264355552, 2734768916, 1309151649,
   4149444226, 3174756917, 718787259, 3951481745]

/-- The 64 MD5 per-round left-rotation amounts. -/
def md5S : List Nat :=
  [7, 12, 17, 22, 7, 12, 17, 22, 7, 12, 17, 22, 7, 12, 17, 22,
   5, 9, 14, 20, 5, 9, 14, 20, 5, 9, 14, 20, 5, 9, 14, 20,
   4, 11, 16, 23, 4, 11, 16, 23, 4, 11, 16, 23, 4, 11, 16, 23,
   6, 10, 15, 21, 6, 10, 15, 21, 6, 10, 15, 21, 6, 10, 15, 21]

/-- Word `i` of a 64-byte block, little-endian. -/
def md5Word (block : List Nat) (i : Nat) : Nat :=
  block.getD (4 * i) 0 + 256 * block.getD (4 * i + 1) 0 +
    65536 * block.getD (4 * i + 2) 0 + 16777216 * block.getD (4 * i + 3) 0

/-- One MD5 step of the 64-step compression loop. -/
def md5Step (block : List Nat) (st : Nat × Nat × Nat × Nat) (i : Nat) :
    Nat × Nat × Nat × Nat :=
  let (a, b, c, d) := st
  let f :=
    if i < 16 then (b &&& c) ||| (not32 b &&& d)
    else if i < 32 then (d &&& b) ||| (not32 d &&& c)
    else if i < 48 then b ^^^ c ^^^ d
    else c ^^^ (b ||| not32 d)
  let g :=
    if i < 16 then i
    else if i < 32 then (5 * i + 1) % 16
    else if i < 48 then (3 * i + 5) % 16
    else 7 * i % 16
  let tmp := w32 (f + a + md5K.getD i 0 + md5Word block g)
  (d, w32 (b + rotl32 tmp (md5S.getD i 0)), b, c)

/-- MD5 compression of one 64-byte block. -/
def md5Compress (st : Nat × Nat × Nat × Nat) (block : List Nat) :
    Nat × Nat × Nat × Nat :=
  let (a0, b0, c0, d0) := st
  let (a, b, c, d) := (List.range 64).foldl (md5Step block) (a0, b0, c0, d0)
  (w32 (a0 + a), w32 (b0 + b), w32 (c0 + c), w32 (d0 + d))

/-- MD5 padding: a `1` bit, zeros to 56 mod 64, then the bit length as a
little-endian 64-bit value. -/
def md5Pad (msg : List Nat) : List Nat :=
  msg ++ 0x80 :: List.replicate ((119 - msg.length % 64) % 64) 0 ++
    le64 (8 * msg.length % 2 ^ 64)

/-- The MD5 digest (16 bytes) of a byte list. -/
def md5 (msg : List Nat) : List Nat :=
  let (a, b, c, d) := (chunks64 (md5Pad msg)).foldl md5Compress
    (1732584193, 4023233417, 2562383102, 271733878)
  le32 a ++ le32 b ++ le32 c ++ le32 d

/-! ## SHA-256 (FIPS 180-4), as implemented by the `sha2` crate -/

/-- The 64 SHA-256 round constants. -/
def sha256K : List Nat :=
  [1116352408, 1899447441, 3049323471, 3921009573, 961987163, 1508970993,
   2453635748, 2870763221, 3624381080, 310598401, 607225278, 1426881987,
   1925078388, 2162078206, 2614888103, 3248222580, 3835390401, 4022224774,
   264347078, 604807628, 770255983, 1249150122, 1555081692, 1996064986,
   2554220882, 2821834349, 2952996808, 3210313671, 3336571891, 3584528711,
   113926993, 338241895, 666307205, 773529912, 1294757372, 1396182291,
   1695183700, 1986661051, 2177026350, 2456956037, 2730485921, 2820302411,
   3259730800, 3345764771, 3516065817, 3600352804, 4094571909, 275423344,
   430227734, 506948616, 659060556, 883997877, 958139571, 1322822218,
   1537002063, 1747873779, 1955562222, 2024104815, 2227730452, 2361852424,
   2428436474, 2756734187, 3204031479, 3329325298]

/-- Word `i` of a 64-byte block, big-endian. -/
def shaWord (block : List Nat) (i : Nat) : Nat :=
  16777216 * block.getD (4 * i) 0 + 65536 * block.getD (4 * i + 1) 0 +
    256 * block.getD (4 * i + 2) 0 + block.getD (4 * i + 3) 0

/-- The SHA-256 message schedule: 64 expanded words of a block. -/
def shaSchedule (block : List Nat) : List Nat :=
  (List.range 64).foldl
    (fun w i =>
      if i < 16 then w ++ [shaWord block i]
      else
        let w15 := w.getD (i - 15) 0
        let w2 := w.getD (i - 2) 0
        let s0 := rotr32 w15 7 ^^^ rotr32 w15 18 ^^^ (w15 >>> 3)
        let s1 := rotr32 w2 17 ^^^ rotr32 w2 19 ^^^ (w2 >>> 10)
        w ++ [w32 (w.getD (i - 16) 0 + s0 + w.getD (i - 7) 0 + s1)])
    []

/-- The SHA-256 working-state type: eight 32-bit words. -/
structure Sha256St where
  a : Nat
  b : Nat
  c : Nat
  d : Nat
  e : Nat
  f : Nat
  g : Nat
  h : Nat
deriving Repr, DecidableEq

/-- One SHA-256 step of the 64-step compression loop. -/
def sha256Step (w : List Nat) (st : Sha256St) (i : Nat) : Sha256St :=
  let s1 := rotr32 st.e 6 ^^^ rotr32 st.e 11 ^^^ rotr32 st.e 25
  let ch := (st.e &&& st.f) ^^^ (not32 st.e &&& st.g)
  let t1 := w32 (st.h + s1 + ch + sha256K.getD i 0 + w.getD i 0)
  let s0 := rotr32 st.a 2 ^^^ rotr32 st.a 13 ^^^ rotr32 st.a 22
  let maj := (st.a &&& st.b) ^^^ (st.a &&& st.c) ^^^ (st.b &&& st.c)
  let t2 := w32 (s0 + maj)
  ⟨w32 (t1 + t2), st.a, st.b, st.c, w32 (st.d + t1), st.e, st.f, st.g⟩

/-- SHA-256 compression of one 64-byte block. -/
def sha256Compress (st : Sha256St) (block : List Nat) : Sha256St :=
  let w := shaSchedule block
  let r := (List.range 64).foldl (sha256Step w) st
  ⟨w32 (st.a + r.a), w32 (st.b + r.b), w32 (st.c + r.c), w32 (st.d + r.d),
   w32 (st.e + r.e), w32 (st.f + r.f), w32 (st.g + r.g), w32 (st.h + r.h)⟩

/-- SHA-256 padding: a `1` bit, zeros to 56 mod 64, then the bit length as
a big-endian 64-bit value. -/
def sha256Pad (msg : List Nat) : List Nat :=
  msg ++ 0x80 :: List.replicate ((119 - msg.length % 64) % 64) 0 ++
    be64 (8 * msg.length % 2 ^ 64)

/-- The SHA-256 digest (32 bytes) of a byte list. -/
def sha256 (msg : List Nat) : List Nat :=
  let r := (chunks64 (sha256Pad msg)).foldl sha256Compress
    ⟨1779033703, 3144134277, 1013904242, 2773480762,
     1359893119, 2600822924, 528734635, 1541459225⟩
  be32 r.a ++ be32 r.b ++ be32 r.c ++ be32 r.d ++
    be32 r.e ++ be32 r.f ++ be32 r.g ++ be32 r.h

/-! ## HMAC-SHA256, as implemented by the `hmac` crate -/

/-- HMAC key normalization: hash keys longer than the 64-byte block, then
zero-pad to the block size. -/
def hmacKeyBlock (key : List Nat) : List Nat :=
  let k := if key.length > 64 then sha256 key else key
  k ++ List.replicate (64 - k.length) 0

/-- HMAC-SHA256 of a message under a key. -/
def hmacSha256 (key msg : List Nat) : List Nat :=
  let k := hmacKeyBlock key
  let ipad := k.map fun b => b ^^^ 0x36
  let opad := k.map fun b => b ^^^ 0x5c
  sha256 (opad ++ sha256 (ipad ++ msg))

/-! ## The ETag fingerprint engine (`src/s3/etag.rs`) -/

/-- An S3 ETag: a 16-byte MD5 digest and, for multi-part objects, a part
count. -/
structure Etag where
  bytes : List Nat
  parts : Option Nat
deriving Repr, DecidableEq

/-- The quote stripping of `Etag::from_str`: remove a leading `"` if
present, then a trailing `"` if present — each independently. -/
def stripQuotes (s : List Char) : List Char :=
  let s₁ := if s.head? = some '"' then s.tail else s
  if s₁.getLast? = some '"' then s₁.dropLast else s₁

/-- `str::split_once`: split at the first occurrence of `sep`, or `none`
when `sep` does not occur. -/
def splitOnce (sep : Char) : List Char → Option (List Char × List Char)
  | [] => none
  | c :: cs =>
    if c = sep then some ([], cs)
    else (splitOnce sep cs).map fun p => (c :: p.1, p.2)

/-- Rust's `u16::from_str`: an optional leading `+`, then one or more
ASCII digits; values of 2^16 or more overflow and fail. -/
def parseU16 (cs : List Char) : Option Nat :=
  let ds := match cs with
    | '+' :: rest => rest
    | _ => cs
  if ds.isEmpty then none
  else if ds.all fun c => c.isDigit then
    let v := ds.foldl (fun acc c => 10 * acc + (c.toNat - 48)) 0
    if v < 65536 then some v else none
  else none

/-- The body of `Etag::from_str` after quote stripping: a 32-character
hex digest, optionally followed by `-` and a part count in `[1, 10000]`. -/
def etagCore (t : List Char) : Option Etag :=
  if t.length < 32 then none
  else if t.length = 32 then (hexDecode t).map fun bs => ⟨bs, none⟩
  else
    match splitOnce '-' t with
    | none => none
    | some (pre, suf) =>
      if pre.length ≠ 32 then none
      else
        match hexDecode pre with
        | none => none
        | some bs =>
          match parseU16 suf with
          | some n => if 0 < n ∧ n ≤ 10000 then some ⟨bs, some n⟩ else none
          | none => none

/-- `impl FromStr for Etag`. -/
def Etag.from_str (s : String) : Option Etag := etagCore (stripQuotes s.data)

/-- `impl fmt::Display for Etag`: each digest byte through the `{:x}`
format specifier (minimal-length hex, no zero padding), then `-{n}` for a
multi-part ETag. -/
def Etag.display (e : Etag) : String :=
  String.mk (e.bytes.flatMap toHexMin) ++
    match e.parts with
    | some n => "-" ++ toString n
    | none => ""

/-- The hasher state a copy loop threads: the bytes written so far. -/
def md5Update (acc chunk : List Nat) : List Nat := acc ++ chunk

/-- `io::copy` / `async_std::io::copy` into the MD5 writer: feed every
chunk of the stream, in order, until end-of-stream. -/
def ioCopy (chunks : List (List Nat)) : List Nat := chunks.foldl md5Update []

/-- `Etag::compute`: stream the reader to completion through MD5 (the
suspension-capable reader, modelled as its chunk sequence). -/
def Etag.compute (chunks : List (List Nat)) : Etag := ⟨md5 (ioCopy chunks), none⟩

/-- `Etag::compute_blocking`: stream the blocking reader to completion
through MD5. -/
def Etag.compute_blocking (chunks : List (List Nat)) : Etag :=
  ⟨md5 (ioCopy chunks), none⟩

/-- `Etag::compute_from`: MD5 of a whole buffer. -/
def Etag.compute_from (bytes : List Nat) : Etag := ⟨md5 bytes, none⟩

/-- Concatenation of a chunked stream. -/
def joinBytes : List (List Nat) → List Nat
  | [] => []
  | c :: cs => c ++ joinBytes cs

/-! ## The region/endpoint resolver (`src/s3/region.rs`) -/

/-- A custom S3 region: a normalized endpoint and an optional region
name. -/
structure CustomRegion where
  endpoint : String
  region : Option String
deriving Repr, DecidableEq

/-- The S3 region: four well-known values plus custom endpoints. -/
inductive Region where
  | UsEast1
  | UsEast2
  | UsWest1
  | UsWest2
  | Custom (region : CustomRegion)
deriving Repr, DecidableEq

/-- The components the `http::Uri` collaborator extracts from an endpoint
string: optional scheme, optional host, optional port. -/
structure UriParts where
  scheme : Option String
  host : Option String
  port : Option String
deriving Repr, DecidableEq

/-- `parse_custom_endpoint`, given the outcome of the `http::Uri` parse of
the input (`none` when the input does not parse as a URI at all):
reconstruct `[scheme://]host[:port]` from the parsed components, requiring
a host. -/
def parse_custom_endpoint (u : Option UriParts) : Option String :=
  match u with
  | some uri =>
    match uri.scheme, uri.host, uri.port with
    | some sch, some h, some p => some (sch ++ "://" ++ h ++ ":" ++ p)
    | some sch, some h, none => some (sch ++ "://" ++ h)
    | none, some h, some p => some (h ++ ":" ++ p)
    | none, some h, none => some h
    | _, _, _ => none
  | none => none

/-- `Region::custom`: a custom region with the parsed endpoint and no
region name. -/
def Region.custom (u : Option UriParts) : Option Region :=
  (parse_custom_endpoint u).map fun ep => Region.Custom ⟨ep, none⟩

/-- `impl FromStr for Region`: the four literal region names, else a
custom endpoint (`u` is the `http::Uri` parse of `s`). -/
def Region.from_str (s : String) (u : Option UriParts) : Option Region :=
  if s = "us-east-1" then some Region.UsEast1
  else if s = "us-east-2" then some Region.UsEast2
  else if s = "us-west-1" then some Region.UsWest1
  else if s = "us-west-2" then some Region.UsWest2
  else Region.custom u

/-- `Region::endpoint`: the fixed endpoint table, or the custom endpoint
unmodified. -/
def Region.endpoint : Region → String
  | Region.UsEast1 => "https://s3.amazonaws.com"
  | Region.UsEast2 => "https://s3-us-east-2.amazonaws.com"
  | Region.UsWest1 => "https://s3-us-west-1.amazonaws.com"
  | Region.UsWest2 => "https://s3-us-west-2.amazonaws.com"
  | Region.Custom r => r.endpoint

/-- `str::find("://")` followed by `&s[n + 3..]`: everything after the
first occurrence of `://` (a `:` whose next two characters are `//`), or
`none` when it does not occur. -/
def findMarker : List Char → Option (List Char)
  | [] => none
  | c :: cs =>
    if c = ':' ∧ cs.take 2 = ['/', '/'] then some (cs.drop 2)
    else findMarker cs

/-- Strip a leading `scheme://` when present (`Custom::host`, first
match). -/
def afterScheme (s : List Char) : List Char :=
  match findMarker s with
  | some r => r
  | none => s

/-- `str::find(":")` followed by `&s[..n]`: everything before the first
`:`, or the whole string (`Custom::host`, second match). -/
def beforeColon (s : List Char) : List Char := s.takeWhile fun c => c ≠ ':'

/-- The host extraction of `Custom::host` / `Region::host`: strip a
scheme, then strip a port. -/
def hostChars (endpoint : List Char) : List Char := beforeColon (afterScheme endpoint)

/-- `Custom::host`. -/
def CustomRegion.host (r : CustomRegion) : String :=
  String.mk (hostChars r.endpoint.data)

/-- `Region::host`: the same algorithm, applied to the region's
endpoint. -/
def Region.host : Region → String
  | Region.Custom r => r.host
  | r => String.mk (hostChars r.endpoint.data)

/-- `impl fmt::Display for Region`: the literal name, the custom region
name, or the empty string for a custom region without one. -/
def Region.toStr : Region → String
  | Region.UsEast1 => "us-east-1"
  | Region.UsEast2 => "us-east-2"
  | Region.UsWest1 => "us-west-1"
  | Region.UsWest2 => "us-west-2"
  | Region.Custom r =>
    match r.region with
    | some reg => reg
    | none => ""

/-! ## Credentials (`src/s3/credentials.rs`) -/

/-- The credential record: all four components optional. -/
structure Credentials where
  access_key : Option String
  secret_key : Option String
  session_token : Option String
  security_token : Option String
deriving Repr, DecidableEq

/-- `Credentials::anonym`. -/
def Credentials.anonym : Credentials := ⟨none, none, none, none⟩

/-- `Credentials::is_anonym`. -/
def Credentials.is_anonym (c : Credentials) : Bool :=
  c.access_key.isNone && c.secret_key.isNone && c.session_token.isNone &&
    c.security_token.isNone

/-! ## Signature Version 4 (`src/s3/sv4.rs`) -/

/-- The view of a `surf::http::Url` the signer reads: the (still
percent-encoded) path, and the decoded query key/value pairs that
`url.query_pairs()` yields. -/
structure Url where
  path : String
  query : List (String × String)
deriving Repr, DecidableEq

/-- A UTC timestamp, the one captured once per signing call. -/
structure UtcTime where
  year : Nat
  month : Nat
  day : Nat
  hour : Nat
  minute : Nat
  second : Nat
deriving Repr, DecidableEq

/-- Two-digit zero-padded decimal. -/
def pad2 (n : Nat) : String := if n < 10 then "0" ++ toString n else toString n

/-- Four-digit zero-padded decimal. -/
def pad4 (n : Nat) : String :=
  if n < 10 then "000" ++ toString n
  else if n < 100 then "00" ++ toString n
  else if n < 1000 then "0" ++ toString n
  else toString n

/-- The `DATE` format description: `[year][month][day]`. -/
def formatDATE (t : UtcTime) : String := pad4 t.year ++ pad2 t.month ++ pad2 t.day

/-- The `DATETIME` format description:
`[year][month][day]T[hour][minute][second]Z`. -/
def formatDATETIME (t : UtcTime) : String :=
  formatDATE t ++ "T" ++ pad2 t.hour ++ pad2 t.minute ++ pad2 t.second ++ "Z"

/-- The payload kind of a request: bodiless (`Empty`) or carrying a body
(`Unsigned`). -/
inductive ContentType where
  | Empty
  | Unsigned
deriving Repr, DecidableEq

/-- `ContentType::as_ref`: the two fixed payload hash tokens. -/
def ContentType.as_ref : ContentType → String
  | ContentType.Empty =>
    "e3b0c44298fc1c149afbf4c8996fb92427ae41e4649b934ca495991b7852b855"
  | ContentType.Unsigned => "UNSIGNED-PAYLOAD"

/-- The `FRAGMENT` percent-encoding set: the C0 controls and `DEL`, the
reserved URL characters, and the unsafe URL characters (`/` excluded). -/
def inFragmentSet (b : Nat) : Bool :=
  b < 32 || b == 127 ||
    (b == 58 || b == 63 || b == 35 || b == 91 || b == 93 || b == 64 ||
     b == 33 || b == 36 || b == 38 || b == 39 || b == 40 || b == 41 ||
     b == 42 || b == 43 || b == 44 || b == 59 || b == 61 || b == 34 ||
     b == 32 || b == 60 || b == 62 || b == 37 || b == 123 || b == 125 ||
     b == 124 || b == 92 || b == 94 || b == 96)

/-- The `FRAGMENT_SLASH` set: `FRAGMENT` plus `/`. -/
def inFragmentSlashSet (b : Nat) : Bool := inFragmentSet b || b == 47

/-- Uppercase hex digit for a value below 16. -/
def hexDigitUpper (n : Nat) : Char :=
  if n < 10 then Char.ofNat (48 + n) else Char.ofNat (55 + n)

/-- A percent-encoded byte: `%XX` with uppercase hex. -/
def pctByte (b : Nat) : List Char := ['%', hexDigitUpper (b / 16 % 16), hexDigitUpper (b % 16)]

/-- `utf8_percent_encode`: percent-encode every byte in the set; bytes
outside ASCII are always encoded. -/
def utf8PercentEncode (set : Nat → Bool) (s : String) : String :=
  String.mk (s.data.flatMap fun c =>
    if 128 ≤ c.toNat || set c.toNat then pctByte c.toNat else [c])

/-- `uri_encode`: AWS canonical encoding, with `/` encoded only when
`encode_slash` is set. -/
def uri_encode (encode_slash : Bool) (s : String) : String :=
  if encode_slash then utf8PercentEncode inFragmentSlashSet s
  else utf8PercentEncode inFragmentSet s

/-- `percent_encoding::percent_decode_str`: decode `%XX` sequences, pass
malformed sequences through. -/
def percentDecode : List Char → List Char
  | [] => []
  | '%' :: c₁ :: c₂ :: rest =>
    if isHexChar c₁ && isHexChar c₂ then
      Char.ofNat (16 * hexCharVal c₁ + hexCharVal c₂) :: percentDecode rest
    else '%' :: percentDecode (c₁ :: c₂ :: rest)
  | c :: rest => c :: percentDecode rest

/-- `canonical_uri_string`: percent-decode the path, then re-encode with
`/` kept. -/
def canonical_uri_string (url : Url) : String :=
  uri_encode false (String.mk (percentDecode url.path.data))

/-- Rust's lexicographic comparison of strings, on the character lists:
`a ≤ b`. UTF-8 byte order coincides with scalar-value order, so comparing
scalar values is faithful to Rust's byte comparison. -/
def charListLe : List Char → List Char → Bool
  | [], _ => true
  | _ :: _, [] => false
  | c₁ :: r₁, c₂ :: r₂ =>
    if c₁ = c₂ then charListLe r₁ r₂ else decide (c₁.toNat < c₂.toNat)

/-- Rust's `String` ordering. -/
def strLe (a b : String) : Prop := charListLe a.data b.data = true

instance : DecidableRel strLe := fun a b => by
  unfold strLe
  infer_instance

/-- The comparison `Vec<(String, String)>::sort` uses: lexicographic on
the pair, key first, value as tie-breaker. -/
def pairLeB (a b : String × String) : Bool :=
  if a.1.data = b.1.data then charListLe a.2.data b.2.data
  else charListLe a.1.data b.1.data

/-- The pair comparison as a relation. -/
def pairLe (a b : String × String) : Prop := pairLeB a b = true

instance : DecidableRel pairLe := fun a b => by
  unfold pairLe
  infer_instance

/-- `canonical_query_string`: collect the query pairs, sort them (raw,
before encoding), percent-encode each side with `/` encoded, join as
`k=v` with `&`. -/
def canonical_query_string (url : Url) : String :=
  let keyvalues := List.insertionSort pairLe url.query
  String.intercalate "&"
    (keyvalues.map fun kv => uri_encode true kv.1 ++ "=" ++ uri_encode true kv.2)

/-- ASCII lowercasing, as header names are normalized. -/
def lowerAscii (s : String) : String := String.mk (s.data.map Char.toLower)

/-- `canonical_header_string`: `lowercase-name:trimmed-value` lines,
sorted as whole lines, joined by newlines. -/
def canonical_header_string (headers : List (String × String)) : String :=
  let keyvalues := headers.map fun kv => lowerAscii kv.1 ++ ":" ++ kv.2.trim
  String.intercalate "\n" (List.insertionSort strLe keyvalues)

/-- `signed_header_string`: lowercase header names, sorted, joined by
`;`. -/
def signed_header_string (names : List String) : String :=
  String.intercalate ";" (List.insertionSort strLe (names.map lowerAscii))

/-- `canonical_request`: the newline-joined canonical request template. -/
def canonical_request (method : String) (url : Url)
    (headers : List (String × String)) (sha : String) : String :=
  method ++ "\n" ++ canonical_uri_string url ++ "\n" ++
    canonical_query_string url ++ "\n" ++ canonical_header_string headers ++
    "\n\n" ++ signed_header_string (headers.map Prod.fst) ++ "\n" ++ sha

/-- `scope_string`: `{date}/{region}/s3/aws4_request`. -/
def scope_string (now : UtcTime) (region : Region) : String :=
  formatDATE now ++ "/" ++ region.toStr ++ "/s3/aws4_request"

/-- `string_to_sign`: the `AWS4-HMAC-SHA256` header line, the timestamp,
the scope, and the hex SHA-256 of the canonical request. -/
def string_to_sign (now : UtcTime) (region : Region) (canonicalReq : String) : String :=
  "AWS4-HMAC-SHA256\n" ++ formatDATETIME now ++ "\n" ++ scope_string now region ++
    "\n" ++ hexEncode (sha256 (strBytes canonicalReq))

/-- `signing_key`: the four-fold HMAC-SHA256 chain over date, region,
service, and the `aws4_request` terminator. -/
def signing_key (now : UtcTime) (secret_key : String) (region : Region)
    (service : String) : List Nat :=
  let dateKey := hmacSha256 (strBytes ("AWS4" ++ secret_key)) (strBytes (formatDATE now))
  let regionKey := hmacSha256 dateKey (strBytes region.toStr)
  let serviceKey := hmacSha256 regionKey (strBytes service)
  hmacSha256 serviceKey (strBytes "aws4_request")

/-- `authorization`: the `Authorization` header value. The source reaches
the credential keys through `expect`, a fatal precondition; absence is
modelled as `none`. -/
def authorization (region : Region) (credentials : Credentials) (now : UtcTime)
    (canonical : String) (names : List String) : Option String :=
  match credentials.access_key, credentials.secret_key with
  | some access_key, some secret_key =>
    let signature := hexEncode (hmacSha256 (signing_key now secret_key region "s3")
      (strBytes (string_to_sign now region canonical)))
    some ("AWS4-HMAC-SHA256 Credential=" ++ access_key ++ "/" ++
      scope_string now region ++ ",SignedHeaders=" ++ signed_header_string names ++
      ",Signature=" ++ signature)
  | _, _ => none

/-- The view of a `surf::http::Request` the signer reads and writes:
method, URL, and the header set. -/
structure Request where
  method : String
  url : Url
  headers : List (String × String)
deriving Repr, DecidableEq

/-- `Request::insert_header`: replace any header of the same (normalized
lowercase) name. -/
def insertHeader (req : Request) (name value : String) : Request :=
  { req with headers :=
      (req.headers.filter fun kv => kv.1 ≠ lowerAscii name) ++ [(lowerAscii name, value)] }

/-- `Request::header_names`. -/
def headerNames (req : Request) : List String := req.headers.map Prod.fst

/-- `sign`: insert the three signing headers, canonicalize, assemble the
`Authorization` header, and insert it. The wall-clock capture
(`now_utc()`, taken once) is the explicit `now` parameter. -/
def sign (region : Region) (credentials : Credentials) (request : Request)
    (kind : ContentType) (now : UtcTime) : Option Request :=
  let request := insertHeader request "X-Amz-Date" (formatDATETIME now)
  let request := insertHeader request "Host" region.host
  let request := insertHeader request "X-Amz-Content-Sha256" kind.as_ref
  let creq := canonical_request request.method request.url request.headers kind.as_ref
  match authorization region credentials now creq (headerNames request) with
  | some a => some (insertHeader request "Authorization" a)
  | none => none

/-! ## Claim-side (specification) definitions, for comparison with the
embedded code -/

/-- The quote-stripping rule as the specification words it: remove the
surrounding quotes only when both are present. -/
def claimStripQuotes (s : List Char) : List Char :=
  if s.head? = some '"' ∧ s.getLast? = some '"' ∧ 2 ≤ s.length then
    s.tail.dropLast
  else s

/-- Whether an optional part count is present and within `[1, 10000]`. -/
def rangeOk : Option Nat → Bool
  | some n => decide (1 ≤ n ∧ n ≤ 10000)
  | none => false

/-- The specification's shape of a valid unquoted ETag: 32 hex characters,
optionally followed by `-` and a part count that parses into
`[1, 10000]`. -/
def specEtagValid (t : List Char) : Bool :=
  decide (32 ≤ t.length) && (t.take 32).all (fun c => isHexChar c) &&
    ((t.drop 32).isEmpty ||
      (decide ((t.drop 32).head? = some '-') && rangeOk (parseU16 (t.drop 32).tail)))

/-- The canonical query string as the claim words it: percent-encode
first, then sort by the encoded pairs. -/
def specQueryString (url : Url) : String :=
  let enc := url.query.map fun kv => (uri_encode true kv.1, uri_encode true kv.2)
  String.intercalate "&"
    ((List.insertionSort pairLe enc).map fun kv => kv.1 ++ "=" ++ kv.2)

/-! ## Supporting lemmas -/

theorem foldl_md5Update (chunks : List (List Nat)) (acc : List Nat) :
    chunks.foldl md5Update acc = acc ++ joinBytes chunks := by
  induction chunks generalizing acc with
  | nil => simp [joinBytes]
  | cons c cs ih => simp [joinBytes, md5Update, ih, List.append_assoc]

theorem char_eq_of_toNat_eq {a b : Char} (h : a.toNat = b.toNat) : a = b := by
  unfold Char.toNat at h
  exact Char.ext (UInt32.ext_iff.mpr h)

theorem charListLe_total : ∀ a b, charListLe a b = true ∨ charListLe b a = true := by
  intro a
  induction a with
  | nil => intro b; exact Or.inl rfl
  | cons x xs ih =>
    intro b
    cases b with
    | nil => exact Or.inr rfl
    | cons y ys =>
      by_cases hxy : x = y
      · subst hxy
        simpa [charListLe] using ih ys
      · have hyx : ¬y = x := fun h => hxy h.symm
        have hne : x.toNat ≠ y.toNat := fun h => hxy (char_eq_of_toNat_eq h)
        simp only [charListLe, if_neg hxy, if_neg hyx, decide_eq_true_eq]
        omega

theorem charListLe_trans :
    ∀ a b c, charListLe a b = true → charListLe b c = true →
      charListLe a c = true := by
  intro a
  induction a with
  | nil => intro b c _ _; rfl
  | cons x xs ih =>
    intro b c hab hbc
    cases b with
    | nil => simp [charListLe] at hab
    | cons y ys =>
      cases c with
      | nil => simp [charListLe] at hbc
      | cons z zs =>
        by_cases hxy : x = y
        · subst hxy
          by_cases hxz : x = z
          · subst hxz
            simp only [charListLe, if_pos rfl] at hab hbc ⊢
            exact ih ys zs hab hbc
          · simp only [charListLe, if_pos rfl, if_neg hxz] at hab hbc ⊢
            exact hbc
        · by_cases hyz : y = z
          · subst hyz
            simp only [charListLe, if_neg hxy] at hab hbc ⊢
            exact hab
          · simp only [charListLe, if_neg hxy, if_neg hyz,
              decide_eq_true_eq] at hab hbc
            by_cases hxz : x = z
            · exfalso
              have : x.toNat = z.toNat := by rw [hxz]
              omega
            · simp only [charListLe, if_neg hxz, decide_eq_true_eq]
              omega

theorem charListLe_antisymm :
    ∀ a b, charListLe a b = true → charListLe b a = true → a = b := by
  intro a
  induction a with
  | nil =>
    intro b _ hba
    cases b with
    | nil => rfl
    | cons y ys => simp [charListLe] at hba
  | cons x xs ih =>
    intro b hab hba
    cases b with
    | nil => simp [charListLe] at hab
    | cons y ys =>
      by_cases hxy : x = y
      · subst hxy
        simp only [charListLe, if_pos rfl] at hab hba
        rw [ih ys hab hba]
      · have hyx : ¬y = x := fun h => hxy h.symm
        simp only [charListLe, if_neg hxy, if_neg hyx, decide_eq_true_eq] at hab hba
        omega

instance : IsTrans (String × String) pairLe := by
  constructor
  intro a b c hab hbc
  unfold pairLe pairLeB at hab hbc ⊢
  by_cases h₁ : a.1.data = b.1.data <;> by_cases h₂ : b.1.data = c.1.data
  · have h₃ : a.1.data = c.1.data := h₁.trans h₂
    simp only [if_pos h₁, if_pos h₂, if_pos h₃] at hab hbc ⊢
    exact charListLe_trans _ _ _ hab hbc
  · have h₃ : ¬a.1.data = c.1.data := fun h => h₂ (h₁.symm.trans h)
    simp only [if_pos h₁, if_neg h₂, if_neg h₃] at hab hbc ⊢
    rw [h₁]
    exact hbc
  · have h₃ : ¬a.1.data = c.1.data := fun h => h₁ (h.trans h₂.symm)
    simp only [if_neg h₁, if_pos h₂, if_neg h₃] at hab hbc ⊢
    rw [← h₂]
    exact hab
  · simp only [if_neg h₁, if_neg h₂] at hab hbc
    by_cases h₃ : a.1.data = c.1.data
    · exfalso
      rw [← h₃] at hbc
      exact h₁ (charListLe_antisymm _ _ hab hbc)
    · simp only [if_neg h₃]
      exact charListLe_trans _ _ _ hab hbc

instance : IsTotal (String × String) pairLe := by
  constructor
  intro a b
  unfold pairLe pairLeB
  by_cases h : a.1.data = b.1.data
  · simp only [if_pos h, if_pos h.symm]
    exact charListLe_total _ _
  · have h' : ¬b.1.data = a.1.data := fun hh => h hh.symm
    simp only [if_neg h, if_neg h']
    exact charListLe_total _ _

instance : IsAntisymm (String × String) pairLe := by
  constructor
  intro a b hab hba
  unfold pairLe pairLeB at hab hba
  by_cases h : a.1.data = b.1.data
  · simp only [if_pos h, if_pos h.symm] at hab hba
    have h₂ := charListLe_antisymm _ _ hab hba
    exact Prod.ext (String.ext h) (String.ext h₂)
  · have h' : ¬b.1.data = a.1.data := fun hh => h hh.symm
    simp only [if_neg h, if_neg h'] at hab hba
    exact absurd (charListLe_antisymm _ _ hab hba) h

/-! ## The claims -/

/-- C6: the streaming computation, the blocking computation, and the
whole-buffer computation produce the same MD5 digest for the same bytes,
all with `parts = none`; the empty input digests to
`d41d8cd98f00b204e9800998ecf8427e` and `"Hello World"` to
`b10a8db164e0754105b7a99be72e3fe5`. -/
theorem etag_compute_agree (chunks : List (List Nat)) :
    Etag.compute chunks = Etag.compute_blocking chunks ∧
    Etag.compute chunks = Etag.compute_from (joinBytes chunks) ∧
    (Etag.compute chunks).parts = none ∧
    hexEncode (Etag.compute_from (strBytes "")).bytes =
      "d41d8cd98f00b204e9800998ecf8427e" ∧
    hexEncode (Etag.compute_from (strBytes "Hello World")).bytes =
      "b10a8db164e0754105b7a99be72e3fe5" := by
  refine ⟨rfl, ?_, rfl, by decide, by decide⟩
  simp [Etag.compute, Etag.compute_from, ioCopy, foldl_md5Update]

/-- C1 fails on the code: `Display for Etag` formats each byte with the
`{:x}` specifier, which drops leading zero nibbles, so a digest containing
bytes below `0x10` displays with fewer than 32 characters. Parsing the
valid 32-hex string `0123456789abcdef0123456789abcdef` and displaying it
yields a 30-character string. -/
theorem etag_display_drops_zero_nibbles :
    (Etag.from_str "0123456789abcdef0123456789abcdef").map Etag.display =
      some "123456789abcdef123456789abcdef" ∧
    ("123456789abcdef123456789abcdef").length = 30 := by decide

/-- C3: the canonical request is the newline-joined template of method,
canonical URI, canonical query string, canonical headers, a blank line,
the signed-header list, and the payload hash token; the token for
bodiless requests is the hex SHA-256 of the empty string, and the token
for requests carrying a body is the literal `UNSIGNED-PAYLOAD`. -/
theorem canonical_request_formula (method : String) (url : Url)
    (headers : List (String × String)) (kind : ContentType) :
    canonical_request method url headers kind.as_ref =
      method ++ "\n" ++ canonical_uri_string url ++ "\n" ++
        canonical_query_string url ++ "\n" ++ canonical_header_string headers ++
        "\n\n" ++ signed_header_string (headers.map Prod.fst) ++ "\n" ++
        kind.as_ref ∧
    ContentType.Empty.as_ref = hexEncode (sha256 (strBytes "")) ∧
    ContentType.Unsigned.as_ref = "UNSIGNED-PAYLOAD" :=
  ⟨rfl, by decide, rfl⟩

/-- C7: signing with credentials missing the access key or the secret key
never produces a signed request (the source's `expect` calls, modelled as
`none`). -/
theorem sign_missing_key_fails (region : Region) (c : Credentials)
    (req : Request) (kind : ContentType) (now : UtcTime)
    (h : c.access_key = none ∨ c.secret_key = none) :
    sign region c req kind now = none := by
  rcases h with h | h
  · simp [sign, authorization, h]
  · cases hak : c.access_key <;> simp [sign, authorization, h, hak]

/-- C7 witness: anonymous credentials at a concrete request. -/
theorem sign_missing_key_fails_witness :
    (Credentials.anonym.access_key = none ∨ Credentials.anonym.secret_key = none) ∧
    sign Region.UsEast1 Credentials.anonym ⟨"GET", ⟨"/", []⟩, []⟩
      ContentType.Empty ⟨2022, 1, 1, 0, 0, 0⟩ = none :=
  ⟨Or.inl rfl, sign_missing_key_fails _ _ _ _ _ (Or.inl rfl)⟩

/-- C8: signing is deterministic given a fixed injected clock value — two
calls on equal credentials, region, request, payload kind, and timestamp
produce identical results. -/
theorem sign_deterministic (r₁ r₂ : Region) (c₁ c₂ : Credentials)
    (q₁ q₂ : Request) (k₁ k₂ : ContentType) (t₁ t₂ : UtcTime)
    (hr : r₁ = r₂) (hc : c₁ = c₂) (hq : q₁ = q₂) (hk : k₁ = k₂) (ht : t₁ = t₂) :
    sign r₁ c₁ q₁ k₁ t₁ = sign r₂ c₂ q₂ k₂ t₂ := by
  subst hr
  subst hc
  subst hq
  subst hk
  subst ht
  rfl

/-- C8 witness: two identical concrete signing calls. -/
theorem sign_deterministic_witness :
    (Region.UsEast1 = Region.UsEast1) ∧
    sign Region.UsEast1 ⟨some "AK", some "SK", none, none⟩
        ⟨"GET", ⟨"/", []⟩, []⟩ ContentType.Empty ⟨2022, 1, 1, 0, 0, 0⟩ =
      sign Region.UsEast1 ⟨some "AK", some "SK", none, none⟩
        ⟨"GET", ⟨"/", []⟩, []⟩ ContentType.Empty ⟨2022, 1, 1, 0, 0, 0⟩ :=
  ⟨rfl, sign_deterministic _ _ _ _ _ _ _ _ _ _ rfl rfl rfl rfl rfl⟩

/-- C2: the produced `Authorization` value is
`AWS4-HMAC-SHA256 Credential={accessKey}/{scope},SignedHeaders={list},Signature={sig}`
where the scope is `date/region/s3/aws4_request`, the signature is the hex
HMAC-SHA256 of the string-to-sign under the signing key, the
string-to-sign is the `AWS4-HMAC-SHA256` line, timestamp, scope, and hex
SHA-256 of the canonical request, and the signing key is the four-fold
HMAC chain over `"AWS4" + secret`, date, region, `"s3"`,
`"aws4_request"`. -/
theorem authorization_formula (region : Region) (c : Credentials)
    (now : UtcTime) (canonical : String) (names : List String) (ak sk : String)
    (hak : c.access_key = some ak) (hsk : c.secret_key = some sk) :
    authorization region c now canonical names =
      some ("AWS4-HMAC-SHA256 Credential=" ++ ak ++ "/" ++
        (formatDATE now ++ "/" ++ region.toStr ++ "/s3/aws4_request") ++
        ",SignedHeaders=" ++ signed_header_string names ++ ",Signature=" ++
        hexEncode (hmacSha256
          (hmacSha256 (hmacSha256 (hmacSha256 (hmacSha256
            (strBytes ("AWS4" ++ sk)) (strBytes (formatDATE now)))
            (strBytes region.toStr)) (strBytes "s3")) (strBytes "aws4_request"))
          (strBytes ("AWS4-HMAC-SHA256\n" ++ formatDATETIME now ++ "\n" ++
            (formatDATE now ++ "/" ++ region.toStr ++ "/s3/aws4_request") ++
            "\n" ++ hexEncode (sha256 (strBytes canonical)))))) := by
  simp [authorization, hak, hsk, signing_key, string_to_sign, scope_string]

/-- C2 witness: concrete credentials, region, timestamp, and canonical
request. -/
theorem authorization_formula_witness :
    ((⟨some "AK", some "SK", none, none⟩ : Credentials).access_key = some "AK") ∧
    ((⟨some "AK", some "SK", none, none⟩ : Credentials).secret_key = some "SK") ∧
    authorization Region.UsEast1 ⟨some "AK", some "SK", none, none⟩
        ⟨2022, 1, 1, 0, 0, 0⟩ "" [] =
      some ("AWS4-HMAC-SHA256 Credential=" ++ "AK" ++ "/" ++
        (formatDATE ⟨2022, 1, 1, 0, 0, 0⟩ ++ "/" ++ Region.UsEast1.toStr ++
          "/s3/aws4_request") ++
        ",SignedHeaders=" ++ signed_header_string [] ++ ",Signature=" ++
        hexEncode (hmacSha256
          (hmacSha256 (hmacSha256 (hmacSha256 (hmacSha256
            (strBytes ("AWS4" ++ "SK")) (strBytes (formatDATE ⟨2022, 1, 1, 0, 0, 0⟩)))
            (strBytes Region.UsEast1.toStr)) (strBytes "s3")) (strBytes "aws4_request"))
          (strBytes ("AWS4-HMAC-SHA256\n" ++ formatDATETIME ⟨2022, 1, 1, 0, 0, 0⟩ ++
            "\n" ++ (formatDATE ⟨2022, 1, 1, 0, 0, 0⟩ ++ "/" ++ Region.UsEast1.toStr ++
            "/s3/aws4_request") ++ "\n" ++ hexEncode (sha256 (strBytes "")))))) :=
  ⟨rfl, rfl, authorization_formula _ _ _ _ _ "AK" "SK" rfl rfl⟩

/-- C10: parsing a region string other than the four literals, when the
endpoint is extractable, yields a custom region with no region name;
its display is the empty string, and the resulting signing scope is
`date//s3/aws4_request`. -/
theorem region_parse_nonliteral (s : String) (u : Option UriParts)
    (r : Region) (t : UtcTime) (h1 : s ≠ "us-east-1") (h2 : s ≠ "us-east-2")
    (h3 : s ≠ "us-west-1") (h4 : s ≠ "us-west-2")
    (h : Region.from_str s u = some r) :
    (∃ ep, r = Region.Custom ⟨ep, none⟩) ∧ r.toStr = "" ∧
      scope_string t r = formatDATE t ++ "//s3/aws4_request" := by
  rw [Region.from_str, if_neg h1, if_neg h2, if_neg h3, if_neg h4,
    Region.custom] at h
  obtain ⟨ep, _, hr⟩ := Option.map_eq_some'.mp h
  subst hr
  refine ⟨⟨ep, rfl⟩, rfl, ?_⟩
  show formatDATE t ++ "/" ++ "" ++ "/s3/aws4_request" =
    formatDATE t ++ "//s3/aws4_request"
  have hlit : ("/" : String) ++ "/s3/aws4_request" = "//s3/aws4_request" := by decide
  rw [String.append_empty, String.append_assoc, hlit]

/-- C10 witness: the region string `eu-west-1`, whose URI parse extracts
the host `eu-west-1`. -/
theorem region_parse_nonliteral_witness :
    (("eu-west-1" : String) ≠ "us-east-1") ∧
    (("eu-west-1" : String) ≠ "us-east-2") ∧
    (("eu-west-1" : String) ≠ "us-west-1") ∧
    (("eu-west-1" : String) ≠ "us-west-2") ∧
    Region.from_str "eu-west-1" (some ⟨none, some "eu-west-1", none⟩) =
      some (Region.Custom ⟨"eu-west-1", none⟩) ∧
    ((∃ ep, Region.Custom ⟨"eu-west-1", none⟩ = Region.Custom ⟨ep, none⟩) ∧
      (Region.Custom ⟨"eu-west-1", none⟩).toStr = "" ∧
      scope_string ⟨2022, 1, 1, 0, 0, 0⟩ (Region.Custom ⟨"eu-west-1", none⟩) =
        formatDATE ⟨2022, 1, 1, 0, 0, 0⟩ ++ "//s3/aws4_request") :=
  ⟨by decide, by decide, by decide, by decide, rfl,
    region_parse_nonliteral "eu-west-1" (some ⟨none, some "eu-west-1", none⟩)
      _ _ (by decide) (by decide) (by decide) (by decide) rfl⟩

/-- C4 fails on the code as stated: the pairs are sorted before
percent-encoding, not by the encoded key. For the query
`[("-", "a"), (":", "b")]` the code emits `-=a&%3A=b` while sorting by
the encoded key would put `%3A` first. -/
theorem canonical_query_not_sorted_by_encoded_key :
    canonical_query_string ⟨"/", [("-", "a"), (":", "b")]⟩ = "-=a&%3A=b" ∧
    specQueryString ⟨"/", [("-", "a"), (":", "b")]⟩ = "%3A=b&-=a" ∧
    canonical_query_string ⟨"/", [("-", "a"), (":", "b")]⟩ ≠
      specQueryString ⟨"/", [("-", "a"), (":", "b")]⟩ := by decide

/-- C4 amended: the canonical query string percent-encodes each key and
value with `/` encoded and joins `k=v` pairs with `&`, after sorting the
raw (pre-encoding) pairs lexicographically; it is stable under
permutation of the input pairs, and empty for a URL with no query. -/
theorem canonical_query_string_spec :
    (∀ url : Url, canonical_query_string url =
      String.intercalate "&" ((List.insertionSort pairLe url.query).map
        fun kv => uri_encode true kv.1 ++ "=" ++ uri_encode true kv.2)) ∧
    (∀ u₁ u₂ : Url, u₁.query.Perm u₂.query →
      canonical_query_string u₁ = canonical_query_string u₂) ∧
    (∀ u : Url, u.query = [] → canonical_query_string u = "") := by
  refine ⟨fun url => rfl, fun u₁ u₂ hp => ?_, fun u hu => by
    simp only [canonical_query_string, hu, List.insertionSort, List.map_nil]
    rfl⟩
  have h := List.eq_of_perm_of_sorted
    (((List.perm_insertionSort pairLe u₁.query).trans hp).trans
      (List.perm_insertionSort pairLe u₂.query).symm)
    (List.sorted_insertionSort pairLe u₁.query)
    (List.sorted_insertionSort pairLe u₂.query)
  simp [canonical_query_string, h]

/-- C4 witness: two permuted concrete query lists canonicalize
identically. -/
theorem canonical_query_string_spec_witness :
    ([(("a" : String), ("1" : String)), (("b" : String), ("2" : String))].Perm
      [(("b" : String), ("2" : String)), (("a" : String), ("1" : String))]) ∧
    canonical_query_string ⟨"/", [("a", "1"), ("b", "2")]⟩ =
      canonical_query_string ⟨"/", [("b", "2"), ("a", "1")]⟩ :=
  ⟨by decide, canonical_query_string_spec.2.1 ⟨"/", [("a", "1"), ("b", "2")]⟩
    ⟨"/", [("b", "2"), ("a", "1")]⟩ (by decide)⟩

theorem findMarker_of_no_colon :
    ∀ l : List Char, (∀ c ∈ l, c ≠ ':') → findMarker l = none := by
  intro l
  induction l with
  | nil => intro _; rfl
  | cons c cs ih =>
    intro h
    have hc : c ≠ ':' := h c (List.mem_cons_self c cs)
    rw [findMarker, if_neg fun hand => hc hand.1]
    exact ih fun x hx => h x (List.mem_cons_of_mem c hx)

theorem findMarker_marker :
    ∀ (scheme rest : List Char), (∀ c ∈ scheme, c ≠ ':') →
      findMarker (scheme ++ ':' :: '/' :: '/' :: rest) = some rest := by
  intro scheme
  induction scheme with
  | nil => intro rest _; rfl
  | cons c cs ih =>
    intro rest h
    have hc : c ≠ ':' := h c (List.mem_cons_self c cs)
    rw [List.cons_append, findMarker, if_neg fun hand => hc hand.1]
    exact ih rest fun x hx => h x (List.mem_cons_of_mem c hx)

theorem findMarker_hostport :
    ∀ (host port : List Char), (∀ c ∈ host, c ≠ ':') →
      (∀ c ∈ port, c ≠ ':' ∧ c ≠ '/') →
      findMarker (host ++ ':' :: port) = none := by
  intro host
  induction host with
  | nil =>
    intro port _ hp
    have hslash : ¬port.take 2 = ['/', '/'] := by
      intro htake
      have : '/' ∈ port :=
        List.mem_of_mem_take (htake ▸ List.mem_cons_self '/' ['/'])
      exact (hp '/' this).2 rfl
    rw [List.nil_append, findMarker, if_neg fun hand => hslash hand.2]
    exact findMarker_of_no_colon port fun c hc => (hp c hc).1
  | cons c cs ih =>
    intro port hh hp
    have hc : c ≠ ':' := hh c (List.mem_cons_self c cs)
    rw [List.cons_append, findMarker, if_neg fun hand => hc hand.1]
    exact ih port (fun x hx => hh x (List.mem_cons_of_mem c hx)) hp

theorem beforeColon_of_no_colon :
    ∀ l : List Char, (∀ c ∈ l, c ≠ ':') → beforeColon l = l := by
  intro l
  induction l with
  | nil => intro _; rfl
  | cons c cs ih =>
    intro h
    have hc : decide (c ≠ ':') = true := by
      simp [h c (List.mem_cons_self c cs)]
    rw [beforeColon, List.takeWhile_cons, hc, if_pos rfl]
    exact congrArg (c :: ·) (ih fun x hx => h x (List.mem_cons_of_mem c hx))

theorem beforeColon_append :
    ∀ (h p : List Char), (∀ c ∈ h, c ≠ ':') →
      beforeColon (h ++ ':' :: p) = h := by
  intro h
  induction h with
  | nil => intro p _; rfl
  | cons c cs ih =>
    intro p hcs
    have hc : decide (c ≠ ':') = true := by
      simp [hcs c (List.mem_cons_self c cs)]
    rw [List.cons_append, beforeColon, List.takeWhile_cons, hc, if_pos rfl]
    exact congrArg (c :: ·) (ih p fun x hx => hcs x (List.mem_cons_of_mem c hx))

/-- C9: `host()` returns exactly the host component for every endpoint
shape — bare host, `scheme://host`, `host:port`, and
`scheme://host:port` — and in particular leaves a scheme-less, port-less
endpoint unchanged. -/
theorem custom_host_strips (scheme host port : List Char)
    (hs : ∀ c ∈ scheme, c ≠ ':' ∧ c ≠ '/')
    (hh : ∀ c ∈ host, c ≠ ':' ∧ c ≠ '/')
    (hp : ∀ c ∈ port, c ≠ ':' ∧ c ≠ '/') :
    CustomRegion.host ⟨String.mk host, none⟩ = String.mk host ∧
    CustomRegion.host ⟨String.mk (scheme ++ ':' :: '/' :: '/' :: host), none⟩ =
      String.mk host ∧
    CustomRegion.host ⟨String.mk (host ++ ':' :: port), none⟩ = String.mk host ∧
    CustomRegion.host
        ⟨String.mk (scheme ++ ':' :: '/' :: '/' :: (host ++ ':' :: port)), none⟩ =
      String.mk host := by
  have hh' : ∀ c ∈ host, c ≠ ':' := fun c hc => (hh c hc).1
  have hs' : ∀ c ∈ scheme, c ≠ ':' := fun c hc => (hs c hc).1
  refine ⟨congrArg String.mk ?_, congrArg String.mk ?_, congrArg String.mk ?_,
    congrArg String.mk ?_⟩
  · show hostChars host = host
    unfold hostChars afterScheme
    rw [findMarker_of_no_colon host hh']
    exact beforeColon_of_no_colon host hh'
  · show hostChars (scheme ++ ':' :: '/' :: '/' :: host) = host
    unfold hostChars afterScheme
    rw [findMarker_marker scheme host hs']
    exact beforeColon_of_no_colon host hh'
  · show hostChars (host ++ ':' :: port) = host
    unfold hostChars afterScheme
    rw [findMarker_hostport host port hh' hp]
    exact beforeColon_append host port hh'
  · show hostChars (scheme ++ ':' :: '/' :: '/' :: (host ++ ':' :: port)) = host
    unfold hostChars afterScheme
    rw [findMarker_marker scheme (host ++ ':' :: port) hs']
    exact beforeColon_append host port hh'

/-- C9 witness: `http`, `localhost`, `9000` form the four concrete
endpoint shapes. -/
theorem custom_host_strips_witness :
    (∀ c ∈ ("http").data, c ≠ ':' ∧ c ≠ '/') ∧
    (∀ c ∈ ("localhost").data, c ≠ ':' ∧ c ≠ '/') ∧
    (∀ c ∈ ("9000").data, c ≠ ':' ∧ c ≠ '/') ∧
    (CustomRegion.host ⟨String.mk ("localhost").data, none⟩ =
        String.mk ("localhost").data ∧
      CustomRegion.host
          ⟨String.mk (("http").data ++ ':' :: '/' :: '/' :: ("localhost").data),
            none⟩ =
        String.mk ("localhost").data ∧
      CustomRegion.host
          ⟨String.mk (("localhost").data ++ ':' :: ("9000").data), none⟩ =
        String.mk ("localhost").data ∧
      CustomRegion.host
          ⟨String.mk (("http").data ++ ':' :: '/' :: '/' ::
            (("localhost").data ++ ':' :: ("9000").data)), none⟩ =
        String.mk ("localhost").data) :=
  ⟨by decide, by decide, by decide,
    custom_host_strips ("http").data ("localhost").data ("9000").data
      (by decide) (by decide) (by decide)⟩

theorem splitOnce_some {sep : Char} :
    ∀ (t pre suf : List Char), splitOnce sep t = some (pre, suf) →
      t = pre ++ sep :: suf ∧ ∀ c ∈ pre, c ≠ sep := by
  intro t
  induction t with
  | nil => intro pre suf h; simp [splitOnce] at h
  | cons c cs ih =>
    intro pre suf h
    by_cases hc : c = sep
    · subst hc
      rw [splitOnce, if_pos rfl] at h
      injection h with h'
      injection h' with h₁ h₂
      subst h₁
      subst h₂
      exact ⟨rfl, by simp⟩
    · simp only [splitOnce, if_neg hc] at h
      obtain ⟨⟨p₁, p₂⟩, hp, heq⟩ := Option.map_eq_some'.mp h
      obtain ⟨ht, hn⟩ := ih p₁ p₂ hp
      obtain ⟨he₁, he₂⟩ := Prod.mk.injEq .. ▸ heq
      subst he₁
      subst he₂
      refine ⟨by simp [ht], ?_⟩
      intro x hx
      rcases List.mem_cons.mp hx with rfl | hx'
      · exact hc
      · exact hn x hx'

theorem splitOnce_none {sep : Char} :
    ∀ t : List Char, splitOnce sep t = none → ∀ c ∈ t, c ≠ sep := by
  intro t
  induction t with
  | nil => intro _ c hc; simp at hc
  | cons c cs ih =>
    intro h x hx
    by_cases hc : c = sep
    · subst hc
      simp [splitOnce] at h
    · simp only [splitOnce, if_neg hc, Option.map_eq_none'] at h
      rcases List.mem_cons.mp hx with rfl | hx'
      · exact hc
      · exact ih h x hx'

theorem hexDecode_isSome :
    ∀ t : List Char, t.length % 2 = 0 →
      (hexDecode t).isSome = t.all fun c => isHexChar c
  | [], _ => rfl
  | [c], h => by simp at h
  | c₁ :: c₂ :: rest, h => by
    have hr : rest.length % 2 = 0 := by
      simp only [List.length_cons] at h
      omega
    have ih := hexDecode_isSome rest hr
    cases hx₁ : isHexChar c₁ <;> cases hx₂ : isHexChar c₂ <;>
      simp_all [hexDecode, List.all_cons]

theorem etagCore_isSome (t : List Char) :
    (etagCore t).isSome = specEtagValid t := by
  by_cases h₁ : t.length < 32
  · have h₂ : ¬32 ≤ t.length := by omega
    simp [etagCore, h₁, specEtagValid, h₂]
  · by_cases h₂ : t.length = 32
    · have htake : t.take 32 = t := List.take_of_length_le (by omega)
      have hdrop : t.drop 32 = [] := List.drop_eq_nil_of_le (by omega)
      simp [etagCore, h₁, h₂, specEtagValid, htake, hdrop,
        hexDecode_isSome t (by omega)]
    · have h₃ : 32 < t.length := by omega
      cases hs : splitOnce '-' t with
      | none =>
        have hnc : ∀ c ∈ t, c ≠ '-' := splitOnce_none t hs
        obtain ⟨d, ds, hdd⟩ : ∃ d ds, t.drop 32 = d :: ds := by
          cases hd : t.drop 32 with
          | nil =>
            exfalso
            have := congrArg List.length hd
            simp [List.length_drop] at this
            omega
          | cons d ds => exact ⟨d, ds, rfl⟩
        have hd_mem : d ∈ t :=
          List.mem_of_mem_drop (hdd ▸ List.mem_cons_self d ds)
        have hdne : d ≠ '-' := hnc d hd_mem
        simp [etagCore, h₁, h₂, hs, specEtagValid, hdd, hdne]
      | some pr =>
        obtain ⟨pre, suf⟩ := pr
        obtain ⟨ht, hnp⟩ := splitOnce_some t pre suf hs
        by_cases hlen : pre.length = 32
        · have htake : t.take 32 = pre := by
            rw [ht, ← hlen, List.take_left]
          have hdrop : t.drop 32 = '-' :: suf := by
            rw [ht, ← hlen, List.drop_left]
          have heven := hexDecode_isSome pre (by rw [hlen])
          cases hx : hexDecode pre with
          | none =>
            have hall : pre.all (fun c => isHexChar c) = false := by
              rw [hx] at heven
              exact heven.symm
            simp [etagCore, h₁, h₂, hs, hlen, hx, specEtagValid, htake,
              hdrop, hall]
          | some bs =>
            have hall : pre.all (fun c => isHexChar c) = true := by
              rw [hx] at heven
              exact heven.symm
            cases hp : parseU16 suf with
            | none =>
              simp [etagCore, h₁, h₂, hs, hlen, hx, hp, specEtagValid,
                htake, hdrop, hall, rangeOk]
            | some n =>
              have h32 : 32 ≤ t.length := by omega
              by_cases hcond : 0 < n ∧ n ≤ 10000
              · have hcond' : 1 ≤ n ∧ n ≤ 10000 := ⟨hcond.1, hcond.2⟩
                simp [etagCore, h₁, h₂, hs, hlen, hx, hp, specEtagValid,
                  htake, hdrop, hall, rangeOk, hcond, hcond', h32]
              · have hcond' : ¬(1 ≤ n ∧ n ≤ 10000) := fun ⟨a, b⟩ => hcond ⟨a, b⟩
                simp [etagCore, h₁, h₂, hs, hlen, hx, hp, specEtagValid,
                  htake, hdrop, hall, rangeOk, hcond, hcond', h32]
        · rcases Nat.lt_or_ge pre.length 32 with hlt | hge
          · have hmem : '-' ∈ t.take 32 := by
              rw [ht, List.take_append_eq_append_take]
              refine List.mem_append_right _ ?_
              have hk : 32 - pre.length = (32 - pre.length - 1) + 1 := by omega
              rw [hk, List.take_succ_cons]
              exact List.mem_cons_self _ _
            have hall : (t.take 32).all (fun c => isHexChar c) = false := by
              rw [List.all_eq_false]
              exact ⟨'-', hmem, by decide⟩
            simp [etagCore, h₁, h₂, hs, hlen, specEtagValid, hall]
          · have hgt : 32 < pre.length := by omega
            obtain ⟨d, ds, hdd⟩ : ∃ d ds, pre.drop 32 = d :: ds := by
              cases hd : pre.drop 32 with
              | nil =>
                exfalso
                have := congrArg List.length hd
                simp [List.length_drop] at this
                omega
              | cons d ds => exact ⟨d, ds, rfl⟩
            have hd_mem : d ∈ pre :=
              List.mem_of_mem_drop (hdd ▸ List.mem_cons_self d ds)
            have hdne : d ≠ '-' := hnp d hd_mem
            have hdrop : t.drop 32 = d :: (ds ++ '-' :: suf) := by
              rw [ht, List.drop_append_eq_append_drop]
              have h0 : 32 - pre.length = 0 := by omega
              rw [h0, hdd]
              rfl
            simp [etagCore, h₁, h₂, hs, hlen, specEtagValid, hdrop, hdne]

/-- C5 fails on the code as stated: the two quotes are stripped
independently, not only when both are present, so a string carrying only
a leading quote around a valid digest is accepted, while the claim's
rule rejects it. -/
theorem etag_parse_leading_quote_only :
    (Etag.from_str "\"d41d8cd98f00b204e9800998ecf8427e").isSome = true ∧
    specEtagValid
      (claimStripQuotes ("\"d41d8cd98f00b204e9800998ecf8427e").data) = false := by
  decide

/-- C5 amended: parsing strips a leading `"` if present and then a
trailing `"` if present, each independently; after stripping it succeeds
exactly on 32 hex characters optionally followed by `-N` with the suffix
parsing as an integer in `[1, 10000]`; in particular the listed malformed
inputs are all rejected. -/
theorem etag_from_str_characterization :
    (∀ s : String,
      (Etag.from_str s).isSome = specEtagValid (stripQuotes s.data)) ∧
    Etag.from_str "000000000000000000000000000000" = none ∧
    Etag.from_str "d41d8cd98f00b204e9800998ecf8427e-0" = none ∧
    Etag.from_str "d41d8cd98f00b204e9800998ecf8427e-10001" = none ∧
    Etag.from_str "d41d8cd98f00b204e9800998ecf8427e-" = none ∧
    Etag.from_str "d41d8cd98f00b20 4e9800998ecf8427e" = none ∧
    Etag.from_str "\"d41d8cd98f00b204e9800998ecf8427e-72-1\"" = none :=
  ⟨fun s => etagCore_isSome (stripQuotes s.data), by decide, by decide,
    by decide, by decide, by decide, by decide⟩

end MinioRs
